import Mathlib

/-!
# Verification of the RSS blog importer pipeline (`src/main.ts`)

Shallow embedding of the feed-ingestion and content-normalization pipeline of
the `rss-blog-importer` plugin.  Machine strings are modelled as `String` or
`List Char`; JavaScript string/regex primitives used by the source are
translated as explicit structurally recursive Lean functions.  External
collaborators (HTTP fetch, the vault file store, `Date` parsing, the DOM
parser) are represented by explicit parameters and outcome values, so every
definition is executable.
-/

set_option autoImplicit false

namespace RSSImporter

/-! ## JavaScript string primitives

The source uses `String.prototype.trim`, `replace` with regexes, `split`,
`startsWith`, `endsWith`.  They are modelled on `List Char` so that every
function is structurally recursive and kernel-evaluable.
-/

/-- Character class of the regex `[<>:"/\\|?*]` used by `sanitizeFileName`
(src/main.ts:363). -/
def fileNameBadChar (c : Char) : Bool :=
  c = '<' || c = '>' || c = ':' || c = '"' || c = '/' || c = '\\' ||
  c = '|' || c = '?' || c = '*'

/-- The JavaScript whitespace class `\s` (the characters relevant to feed
titles; the full Unicode class additionally contains rare separator code
points which behave identically in all lemmas below). -/
def isJsWs (c : Char) : Bool :=
  c = ' ' || c = '\t' || c = '\n' || c = '\r' || c = '\x0b' || c = '\x0c' ||
  c = ' ' || c = '﻿'

/-- One pass of the regex replacement `.replace(/\s+/g, ' ')`
(src/main.ts:363): a maximal-munch scanner that rewrites each maximal run of
whitespace to a single space.  `fuel` bounds the recursion; it is initialised
to the length of the list, which suffices because each step consumes at least
one character. -/
def reCollapseAux (fuel : Nat) (l : List Char) : List Char :=
  match fuel, l with
  | _, [] => []
  | 0, l => l
  | fuel + 1, c :: rest =>
    if isJsWs c then ' ' :: reCollapseAux fuel (rest.dropWhile isJsWs)
    else c :: reCollapseAux fuel rest

/-- The replacement `.replace(/\s+/g, ' ')` from src/main.ts:363. -/
def reCollapse (l : List Char) : List Char := reCollapseAux l.length l

/-- JavaScript `String.prototype.trim`: drop leading and trailing whitespace. -/
def jsTrim (l : List Char) : List Char :=
  ((l.dropWhile isJsWs).reverse.dropWhile isJsWs).reverse

/-- Source function `sanitizeFileName` (src/main.ts:362-364):
`name.replace(/[<>:"/\\|?*]/g, '-').replace(/\s+/g, ' ').trim()`. -/
def sanitizeFileName (name : List Char) : List Char :=
  jsTrim (reCollapse (name.map fun c => if fileNameBadChar c then '-' else c))

/-- JavaScript `String.prototype.trim` lifted to `String` (used for the settings value
`appendBacklink.trim()` in src/main.ts:395-396). -/
def jsTrimStr (s : String) : String := String.mk (jsTrim s.toList)

example : sanitizeFileName "  a<b>c  d ".toList = "a-b-c d".toList := by decide
example : jsTrimStr "  x " = "x" := by decide

/-! ## Specification-side formulation of the sanitization steps (claim C9)

The spec describes sanitization as three steps: replace the reserved
characters by `-`, collapse every whitespace run to a single space, trim.
The collapse step is stated here independently of the regex scanner, as a
one-character-lookbehind automaton: a whitespace character is emitted as a
single space unless the previous character was also whitespace. -/

/-- Collapse automaton; `prevWs` records whether the previous input character
was whitespace. -/
def specCollapseAux (prevWs : Bool) : List Char → List Char
  | [] => []
  | c :: rest =>
    if isJsWs c then
      if prevWs then specCollapseAux true rest
      else ' ' :: specCollapseAux true rest
    else c :: specCollapseAux false rest

/-- Spec reading of "collapses every run of whitespace to a single space". -/
def specCollapse (l : List Char) : List Char := specCollapseAux false l

/-- Spec reading of step 1: "replaces each character among the reserved set
with a dash". -/
def specReplaceBad (l : List Char) : List Char :=
  l.map fun c => if fileNameBadChar c then '-' else c

theorem dropWhile_length_le (p : Char → Bool) (l : List Char) :
    (l.dropWhile p).length ≤ l.length := by
  induction l with
  | nil => simp
  | cons c rest ih =>
    by_cases h : p c
    · simp only [List.dropWhile_cons, h, if_true]
      exact Nat.le_trans ih (Nat.le_succ _)
    · simp [List.dropWhile_cons, h]

theorem specCollapseAux_true (l : List Char) :
    specCollapseAux true l = specCollapseAux false (l.dropWhile isJsWs) := by
  induction l with
  | nil => rfl
  | cons c rest ih =>
    by_cases h : isJsWs c
    · simp [specCollapseAux, h, List.dropWhile_cons, ih]
    · simp [specCollapseAux, h, List.dropWhile_cons]

theorem reCollapseAux_eq_specCollapse (fuel : Nat) (l : List Char)
    (h : l.length ≤ fuel) : reCollapseAux fuel l = specCollapseAux false l := by
  induction fuel generalizing l with
  | zero =>
    have : l = [] := List.eq_nil_of_length_eq_zero (Nat.le_zero.mp h)
    subst this; rfl
  | succ fuel ih =>
    cases l with
    | nil => rfl
    | cons c rest =>
      simp only [List.length_cons, Nat.succ_le_succ_iff] at h
      by_cases hc : isJsWs c
      · have hlen : (rest.dropWhile isJsWs).length ≤ fuel :=
          Nat.le_trans (dropWhile_length_le _ _) h
        simp [reCollapseAux, specCollapseAux, hc, ih _ hlen,
          specCollapseAux_true]
      · simp [reCollapseAux, specCollapseAux, hc, ih _ h]

theorem reCollapse_eq_specCollapse (l : List Char) :
    reCollapse l = specCollapse l :=
  reCollapseAux_eq_specCollapse l.length l (Nat.le_refl _)

/-! ## Literal global string replacement (claim C3)

`createBlogPost` rewrites the HTML body with
`htmlContent.replace(new RegExp(escapedUrl, 'g'), localPath)`
(src/main.ts:265-272).  Because every regex metacharacter of the URL is
escaped first, the regex matches the URL literally; the JavaScript semantics
is a left-to-right scan replacing each leftmost non-overlapping occurrence,
resuming after the inserted replacement.  (`$`-escapes of the JavaScript
replacement string are not modelled; local tokens contain `$` only if the
post title does.)  `fuel` bounds the recursion and is initialised to the
length of the text. -/

/-- One `String.replace(regexGlobal(pat), rep)` step of the scan. -/
def replaceAllAux (pat rep : List Char) (fuel : Nat) (l : List Char) :
    List Char :=
  match fuel, l with
  | _, [] => []
  | 0, l => l
  | fuel + 1, c :: rest =>
    if pat ≠ [] ∧ pat.isPrefixOf (c :: rest) then
      rep ++ replaceAllAux pat rep fuel ((c :: rest).drop pat.length)
    else
      c :: replaceAllAux pat rep fuel rest

/-- JavaScript `text.replace(new RegExp(escape(pat), 'g'), rep)`. -/
def replaceAll (pat rep l : List Char) : List Char :=
  replaceAllAux pat rep l.length l

/-- The rewriting loop over the image map (src/main.ts:265-272): the map
iterates in insertion order, and each entry performs one global literal
replacement on the current HTML.  (The source guards the replacement with
`htmlContent.match(regex)`, which only skips replacements that would be
identities.) -/
def rewriteContent (imageMap : List (List Char × List Char))
    (html : List Char) : List Char :=
  imageMap.foldl (fun h p => replaceAll p.1 p.2 h) html

example : rewriteContent [("ab".toList, "X".toList)] "ab c ab".toList
    = "X c X".toList := by decide

theorem replaceAllAux_congr (pat rep : List Char) (f₁ : Nat) :
    ∀ (f₂ : Nat) (l : List Char), l.length ≤ f₁ → l.length ≤ f₂ →
      replaceAllAux pat rep f₁ l = replaceAllAux pat rep f₂ l := by
  induction f₁ with
  | zero =>
    intro f₂ l h₁ _
    have : l = [] := List.eq_nil_of_length_eq_zero (Nat.le_zero.mp h₁)
    subst this
    cases f₂ <;> rfl
  | succ f₁ ih =>
    intro f₂ l h₁ h₂
    cases l with
    | nil => cases f₂ <;> rfl
    | cons c rest =>
      cases f₂ with
      | zero => exact absurd h₂ (by simp)
      | succ f₂ =>
        simp only [List.length_cons, Nat.succ_le_succ_iff] at h₁ h₂
        simp only [replaceAllAux]
        by_cases hm : pat ≠ [] ∧ pat.isPrefixOf (c :: rest)
        · rw [if_pos hm, if_pos hm]
          have hd : ((c :: rest).drop pat.length).length ≤ rest.length := by
            cases pat with
            | nil => exact absurd rfl hm.1
            | cons p ps =>
              simp only [List.length_cons, List.length_drop]
              omega
          rw [ih f₂ _ (Nat.le_trans hd h₁) (Nat.le_trans hd h₂)]
        · rw [if_neg hm, if_neg hm]
          rw [ih f₂ rest h₁ h₂]

theorem replaceAll_nil (pat rep : List Char) : replaceAll pat rep [] = [] := rfl

theorem replaceAll_pos (pat rep l : List Char) (hp : pat ≠ [])
    (hpre : pat.isPrefixOf l) (hl : l ≠ []) :
    replaceAll pat rep l = rep ++ replaceAll pat rep (l.drop pat.length) := by
  cases l with
  | nil => exact absurd rfl hl
  | cons c rest =>
    show replaceAllAux pat rep (rest.length + 1) (c :: rest) = _
    simp only [replaceAllAux, hp, hpre, if_true, ne_eq, not_false_iff,
      true_and]
    congr 1
    apply replaceAllAux_congr
    · cases pat with
      | nil => exact absurd rfl hp
      | cons p ps => simp only [List.length_cons, List.length_drop]; omega
    · exact Nat.le_refl _

theorem replaceAll_neg (pat rep : List Char) (c : Char) (rest : List Char)
    (h : ¬ (pat ≠ [] ∧ pat.isPrefixOf (c :: rest))) :
    replaceAll pat rep (c :: rest) = c :: replaceAll pat rep rest := by
  show replaceAllAux pat rep (rest.length + 1) (c :: rest) = _
  simp only [replaceAllAux]
  rw [if_neg h]
  rfl

theorem replaceAll_of_no_match (pat rep : List Char)
    (l : List Char) (h : ∀ i, i < l.length → ¬ pat.isPrefixOf (l.drop i)) :
    replaceAll pat rep l = l := by
  induction l with
  | nil => rfl
  | cons c rest ih =>
    have h0 : ¬ pat.isPrefixOf (c :: rest) := by
      have := h 0 (by simp)
      simpa using this
    rw [replaceAll_neg pat rep c rest (fun hc => h0 hc.2)]
    congr 1
    exact ih (fun i hi => by
      have := h (i + 1) (by simpa using Nat.succ_lt_succ hi)
      simpa using this)

/-- A pattern that matches inside `x ++ s` at a position that leaves at least
`pat.length` characters inside `x` already matches inside `x`. -/
theorem isPrefixOf_of_append (pat x s : List Char) (i : Nat)
    (hfit : i + pat.length ≤ x.length)
    (h : pat.isPrefixOf ((x ++ s).drop i)) : pat.isPrefixOf (x.drop i) := by
  rw [List.isPrefixOf_iff_prefix] at h ⊢
  rw [List.prefix_iff_eq_take] at h ⊢
  rw [List.drop_append_eq_append_drop] at h
  rwa [List.take_append_of_le_length (by simp [List.length_drop]; omega)] at h

/-- Text with no straddling or internal occurrence of the pattern, followed by
the pattern, is rewritten by replacing that occurrence and continuing after
it. -/
theorem replaceAll_boundary (pat rep : List Char) (hp : pat ≠ []) :
    ∀ (p s : List Char),
      (∀ i, i < p.length → ¬ pat.isPrefixOf ((p ++ pat).drop i)) →
      replaceAll pat rep (p ++ pat ++ s) = p ++ rep ++ replaceAll pat rep s := by
  intro p
  induction p with
  | nil =>
    intro s _
    have hne : pat ++ s ≠ [] := by
      cases pat with
      | nil => exact absurd rfl hp
      | cons a l => simp
    rw [List.nil_append, List.nil_append,
      replaceAll_pos pat rep (pat ++ s) hp
        (List.isPrefixOf_iff_prefix.mpr (List.prefix_append pat s)) hne,
      List.drop_left]
  | cons c p ih =>
    intro s h
    have h0 : ¬ pat.isPrefixOf (c :: (p ++ pat ++ s)) := by
      intro hpre
      have hfit : 0 + pat.length ≤ (c :: (p ++ pat)).length := by
        simp only [List.length_cons, List.length_append]
        omega
      have := isPrefixOf_of_append pat (c :: (p ++ pat)) s 0 hfit
        (by simpa using hpre)
      exact h 0 (by simp) (by simpa using this)
    have step := replaceAll_neg pat rep c (p ++ pat ++ s)
      (fun hc => h0 hc.2)
    calc replaceAll pat rep ((c :: p) ++ pat ++ s)
        = c :: replaceAll pat rep (p ++ pat ++ s) := step
      _ = c :: (p ++ rep ++ replaceAll pat rep s) := by
          rw [ih s (fun i hi => by
            have := h (i + 1) (by simpa using Nat.succ_lt_succ hi)
            simpa using this)]
      _ = (c :: p) ++ rep ++ replaceAll pat rep s := by simp

/-- The interleaving `joinWith sep parts`
(`parts₀ ++ sep ++ parts₁ ++ sep ++ ...`). -/
def joinWith (sep : List Char) : List (List Char) → List Char
  | [] => []
  | [p] => p
  | p :: q :: rest => p ++ sep ++ joinWith sep (q :: rest)

/-- Predicate `cleanFor pat p = true`: no occurrence of `pat` begins inside `p`,
even one that straddles into an immediately following occurrence of `pat`. -/
def cleanFor (pat p : List Char) : Bool :=
  (List.range p.length).all fun i => ! pat.isPrefixOf ((p ++ pat).drop i)

theorem cleanFor_no_match (pat p : List Char) (h : cleanFor pat p = true)
    (i : Nat) (hi : i < p.length) : ¬ pat.isPrefixOf ((p ++ pat).drop i) := by
  have := List.all_eq_true.mp h i (List.mem_range.mpr hi)
  simp only [Bool.not_eq_true'] at this
  simp [this]

theorem cleanFor_no_match_inside (pat p : List Char) (h : cleanFor pat p = true)
    (i : Nat) (hi : i < p.length) : ¬ pat.isPrefixOf (p.drop i) := by
  intro hpre
  apply cleanFor_no_match pat p h i hi
  rw [List.isPrefixOf_iff_prefix, List.prefix_iff_eq_take] at hpre ⊢
  have hlen : pat.length ≤ (List.drop i p).length := by
    have h2 := congrArg List.length hpre
    simp only [List.length_take] at h2
    exact le_trans (le_of_eq h2) (Nat.min_le_right _ _)
  rw [List.drop_append_eq_append_drop,
    List.take_append_of_le_length hlen]
  exact hpre

/-- Global literal replacement of a single pattern over an interleaving with
occurrence-free parts replaces exactly the interleaved occurrences. -/
theorem replaceAll_joinWith (pat rep : List Char) (hp : pat ≠ [])
    (parts : List (List Char)) (h : ∀ p ∈ parts, cleanFor pat p = true) :
    replaceAll pat rep (joinWith pat parts) = joinWith rep parts := by
  induction parts with
  | nil => rfl
  | cons p rest ih =>
    cases rest with
    | nil =>
      show replaceAll pat rep p = p
      exact replaceAll_of_no_match pat rep p
        (fun i hi => cleanFor_no_match_inside pat p
          (h p (by simp)) i hi)
    | cons q rest =>
      show replaceAll pat rep (p ++ pat ++ joinWith pat (q :: rest)) = _
      rw [replaceAll_boundary pat rep hp p (joinWith pat (q :: rest))
        (fun i hi => cleanFor_no_match pat p (h p (by simp)) i hi)]
      rw [ih (fun r hr => h r (by simp [hr]))]
      rfl

/-- C3 counterexample: the claim fails when one successfully materialized URL
is a literal substring of another.  With the map insertion order produced by
`extractImageUrls` for the HTML text modelled as `"a ab"` (URL `"a"` first,
URL `"ab"` second, both downloads succeeding with tokens `"x"` and `"y"`),
the first replacement rewrites the occurrence of `"a"` inside `"ab"`, so the
final document is `"x xb"`: the mapped URL `"ab"` occurred in the HTML, yet
its token `"y"` appears nowhere in the result. -/
theorem C3_counterexample :
    rewriteContent [("a".toList, "x".toList), ("ab".toList, "y".toList)]
        "a ab".toList = "x xb".toList
    ∧ "ab".toList <:+: "a ab".toList
    ∧ ¬ "y".toList <:+: "x xb".toList := by
  decide

/-- C3 (amended): the Content Rewriter performs one global literal
replacement per mapped URL, sequentially in map insertion order, with regex
metacharacters escaped, so each step replaces every occurrence of its URL
that is present at that step; an earlier replacement can destroy occurrences
of a later mapped URL, so the claim's per-URL guarantee holds when the mapped
URLs do not overlap.  In particular, in the partial-failure scenario of the
claim — the download of URL `A` fails (so it is absent from the map) and URL
`B` succeeds — as long as no occurrence of `B` begins inside a part of the
document between occurrences (hypothesis `cleanFor`) and the token contains
no JavaScript replacement-pattern escape (`'$'`), the result replaces every
occurrence of `B` by `B`'s token and leaves all remaining text, including
every occurrence of `A`, byte-for-byte unchanged. -/
theorem C3_rewriter_replaces_mapped_urls
    (urlB tokB : List Char) (parts : List (List Char))
    (hB : urlB ≠ []) (_hdollar : '$' ∉ tokB)
    (hclean : ∀ p ∈ parts, cleanFor urlB p = true) :
    rewriteContent [(urlB, tokB)] (joinWith urlB parts)
      = joinWith tokB parts := by
  show replaceAll urlB tokB (joinWith urlB parts) = _
  exact replaceAll_joinWith urlB tokB hB parts hclean

/-- Witness for the amended C3 theorem: document `"p a ub a q"` with failed
URL `"a"` and successful URL `"ub"` mapped to token `"Y"` rewrites to
`"p a Y a q"`. -/
theorem C3_rewriter_replaces_mapped_urls_witness :
    rewriteContent [("ub".toList, "Y".toList)]
        (joinWith "ub".toList ["p a ".toList, " a q".toList])
      = joinWith "Y".toList ["p a ".toList, " a q".toList] :=
  C3_rewriter_replaces_mapped_urls "ub".toList "Y".toList
    ["p a ".toList, " a q".toList] (by decide) (by decide) (by decide)

/-- C9: `sanitizeFileName` is exactly the composition of the three specified
steps, in order: replace each reserved character among the nine listed ones
with a dash, collapse every whitespace run to a single space, then trim
leading and trailing whitespace. -/
theorem C9_sanitizeFileName_three_steps (name : List Char) :
    sanitizeFileName name = jsTrim (specCollapse (specReplaceBad name)) := by
  unfold sanitizeFileName specReplaceBad
  rw [reCollapse_eq_specCollapse]

/-! ## Image file naming (claims C6 and C7)

`downloadImage` (src/main.ts:335-360) derives the stored file name from the
image URL, the sanitized post title and `Date.now()`:
```
const urlParts = imageUrl.split('/');
const fileName = urlParts[urlParts.length - 1] || 'image';
const extension = fileName.split('.').pop() || 'jpg';
const imageName = `{sanitizedTitle}-{Date.now()}.{extension}`;
```
`Date.now()` is an external clock reading and is passed in as `nowMs`.
JavaScript `split` with a single-character separator is modelled by
`jsSplit`. -/

/-- JavaScript `String.prototype.split` with a one-character separator. -/
def jsSplit (sep : Char) : List Char → List (List Char)
  | [] => [[]]
  | c :: rest =>
    if c = sep then [] :: jsSplit sep rest
    else
      match jsSplit sep rest with
      | [] => [[c]]
      | h :: t => (c :: h) :: t

example : jsSplit '/' "a/b".toList = ["a".toList, "b".toList] := by decide
example : jsSplit '/' "a/".toList = ["a".toList, []] := by decide
example : jsSplit '.' "".toList = [[]] := by decide

/-- JavaScript `arr[arr.length - 1]` on an array of strings (with `d` the
value used when the array is empty; `jsSplit` never returns an empty
array). -/
def lastOr (d : List Char) : List (List Char) → List Char
  | [] => d
  | [x] => x
  | _ :: y :: t => lastOr d (y :: t)

/-- The expression `urlParts[urlParts.length - 1] || 'image'` (src/main.ts:342-343). -/
def imageTrailingSegment (imageUrl : List Char) : List Char :=
  let fn := lastOr [] (jsSplit '/' imageUrl)
  if fn = [] then "image".toList else fn

/-- The expression `fileName.split('.').pop() || 'jpg'` (src/main.ts:344). -/
def imageExtension (imageUrl : List Char) : List Char :=
  let e := lastOr [] (jsSplit '.' (imageTrailingSegment imageUrl))
  if e = [] then "jpg".toList else e

/-- The stored image file name
`{sanitizeFileName(postTitle)}-{Date.now()}.{extension}`
(src/main.ts:346-347). -/
def imageName (postTitle : List Char) (nowMs : Nat) (imageUrl : List Char) :
    List Char :=
  sanitizeFileName postTitle ++ ('-' :: Nat.toDigits 10 nowMs) ++
    ('.' :: imageExtension imageUrl)

example : imageName "T".toList 123 "http://a/x.png".toList
    = "T-123.png".toList := by decide

/-- C6: the claim (pairwise-distinct local names within one run) is the
spec's stated requirement, but the code derives the disambiguator from
`Date.now()` alone — exactly the wall-clock-only scheme the spec rules out.
Two distinct image URLs downloaded for the same post during the same
millisecond tick receive identical local file names. -/
theorem C6_name_collision_same_tick :
    "https://a.example/x.jpg".toList ≠ "https://b.example/y.jpg".toList
    ∧ imageName "Post".toList 1234567 "https://a.example/x.jpg".toList
        = imageName "Post".toList 1234567 "https://b.example/y.jpg".toList := by
  decide

/-- C7 counterexample: for a URL whose trailing path segment has no
extension, the code uses the whole segment as the extension instead of the
claimed default `"jpg"`. -/
theorem C7_counterexample :
    imageExtension "http://example.com/photo".toList = "photo".toList
    ∧ imageExtension "http://example.com/photo".toList ≠ "jpg".toList := by
  decide

theorem jsSplit_ne_nil (sep : Char) (l : List Char) : jsSplit sep l ≠ [] := by
  cases l with
  | nil => simp [jsSplit]
  | cons c rest =>
    by_cases h : c = sep
    · simp [jsSplit, h]
    · simp only [jsSplit, h, if_false]
      cases jsSplit sep rest <;> simp

theorem jsSplit_of_not_mem (sep : Char) (l : List Char) (h : ¬ sep ∈ l) :
    jsSplit sep l = [l] := by
  induction l with
  | nil => rfl
  | cons c rest ih =>
    have hc : ¬ c = sep := fun hc => h (by simp [hc])
    have hr : ¬ sep ∈ rest := fun hm => h (by simp [hm])
    simp only [jsSplit, hc, if_false, ih hr]

theorem jsSplit_cons_sep (sep : Char) (rest : List Char) :
    jsSplit sep (sep :: rest) = [] :: jsSplit sep rest := by
  simp [jsSplit]

theorem jsSplit_cons_ne (sep c : Char) (rest h' : List Char)
    (t : List (List Char)) (hc : ¬ c = sep)
    (hr : jsSplit sep rest = h' :: t) :
    jsSplit sep (c :: rest) = (c :: h') :: t := by
  simp [jsSplit, hc, hr]

theorem jsSplit_append_sep (sep : Char) (x y : List Char) :
    jsSplit sep (x ++ sep :: y) = jsSplit sep x ++ jsSplit sep y := by
  induction x with
  | nil =>
    rw [List.nil_append, jsSplit_cons_sep]
    rfl
  | cons c x ih =>
    by_cases hc : c = sep
    · subst hc
      rw [List.cons_append, jsSplit_cons_sep, ih, jsSplit_cons_sep]
      simp
    · obtain ⟨h', t, hx⟩ : ∃ h' t, jsSplit sep x = h' :: t := by
        cases hx : jsSplit sep x with
        | nil => exact absurd hx (jsSplit_ne_nil sep x)
        | cons a b => exact ⟨a, b, rfl⟩
      rw [List.cons_append,
        jsSplit_cons_ne sep c (x ++ sep :: y) h' (t ++ jsSplit sep y) hc
          (by rw [ih, hx]; rfl),
        jsSplit_cons_ne sep c x h' t hc hx]
      simp

theorem lastOr_cons_of_ne_nil (d x : List Char) (s : List (List Char))
    (hs : s ≠ []) : lastOr d (x :: s) = lastOr d s := by
  cases s with
  | nil => exact absurd rfl hs
  | cons y t => rfl

theorem lastOr_append_of_ne_nil (d : List Char) (s₁ s₂ : List (List Char))
    (hs : s₂ ≠ []) : lastOr d (s₁ ++ s₂) = lastOr d s₂ := by
  induction s₁ with
  | nil => rfl
  | cons x s₁ ih =>
    rw [List.cons_append, lastOr_cons_of_ne_nil d x (s₁ ++ s₂)
      (by cases s₂ with
        | nil => exact absurd rfl hs
        | cons y t => simp), ih]

theorem imageTrailingSegment_ne_nil (imageUrl : List Char) :
    imageTrailingSegment imageUrl ≠ [] := by
  unfold imageTrailingSegment
  by_cases h : lastOr [] (jsSplit '/' imageUrl) = []
  · rw [if_pos h]
    simp
  · rw [if_neg h]
    exact h

/-- C7 (amended): the extension of the derived local file name is the final
dot-separated component of the URL's trailing path segment (with the
fallback literal `"image"` substituted when the trailing segment is empty):
when the segment contains no dot the whole segment is used, and `"jpg"` is
used only when the final component is empty, i.e. when the segment ends with
a dot.  In particular, when the trailing segment does have an extension
(a nonempty dot-free final component after a dot), that extension is used,
as the claim states. -/
theorem C7_extension_from_trailing_segment (imageUrl : List Char) :
    (('.' ∈ imageTrailingSegment imageUrl → False) →
      imageExtension imageUrl = imageTrailingSegment imageUrl)
    ∧ (∀ a b : List Char, imageTrailingSegment imageUrl = a ++ '.' :: b →
        ('.' ∈ b → False) →
        (b = [] → imageExtension imageUrl = "jpg".toList)
        ∧ (b ≠ [] → imageExtension imageUrl = b)) := by
  constructor
  · intro hnd
    unfold imageExtension
    rw [jsSplit_of_not_mem '.' _ hnd]
    show (if imageTrailingSegment imageUrl = [] then _ else _) = _
    rw [if_neg (imageTrailingSegment_ne_nil imageUrl)]
    rfl
  · intro a b hseg hnd
    have hsplit : lastOr [] (jsSplit '.' (imageTrailingSegment imageUrl))
        = b := by
      rw [hseg, jsSplit_append_sep, jsSplit_of_not_mem '.' b hnd,
        lastOr_append_of_ne_nil [] _ _ (by simp)]
      rfl
    constructor
    · intro hb
      unfold imageExtension
      rw [hsplit, if_pos hb]
    · intro hb
      unfold imageExtension
      rw [hsplit, if_neg hb]

/-- Witness for the amended C7 theorem: the URL `"a/x.png"` has trailing
segment `"x.png"`, whose extension `"png"` becomes the file extension. -/
theorem C7_extension_from_trailing_segment_witness :
    imageExtension "a/x.png".toList = "png".toList :=
  (((C7_extension_from_trailing_segment "a/x.png".toList).2
      "x".toList "png".toList (by decide) (by decide)).2) (by decide)

/-! ## Feed items as parsed XML elements

A feed item (`item` or `entry`) is modelled as the list of its descendant
elements in document order; each element carries its tag name, its
`textContent`, and its attributes.  `item.querySelector(sel₁, sel₂, ...)`
returns the first element in document order matching any selector in the
list, and `null` (here `none`) when there is no match. -/

structure Elem where
  tag : String
  text : String
  attrs : List (String × String)
deriving DecidableEq

/-- A feed item: its descendant elements in document order. -/
abbrev Item := List Elem

/-- DOM `item.querySelector('t1, t2, ...')`: first element in document order
whose tag matches any of the given tag selectors. -/
def qsel (tags : List String) (item : Item) : Option Elem :=
  item.find? fun e => tags.contains e.tag

/-- The content-field selector list of `createBlogPost` (src/main.ts:223):
`['content\\:encoded', 'content', 'description', 'summary']` (the escaped
colon makes the first selector match the tag `content:encoded`). -/
def contentSelectors : List String :=
  ["content:encoded", "content", "description", "summary"]

/-- The content-selection loop of `createBlogPost` (src/main.ts:227-234):
for each selector in order, take the first matching element; accept its
`textContent` when that is truthy (a non-empty string), else try the next
selector; default to the empty string. -/
def selectLoop (item : Item) : List String → String
  | [] => ""
  | sel :: rest =>
    match qsel [sel] item with
    | some e => if e.text = "" then selectLoop item rest else e.text
    | none => selectLoop item rest

/-- The Content Selector: `htmlContent` as computed in src/main.ts:222-234. -/
def selectContent (item : Item) : String := selectLoop item contentSelectors

/-- The claim's reading of the Content Selector: first field that is present
and whose `trimmed` length is positive. -/
def selectContentClaim (item : Item) : String :=
  (contentSelectors.findSome? fun sel =>
    (qsel [sel] item).bind fun e =>
      if jsTrimStr e.text = "" then none else some e.text).getD ""

/-- The amended reading: first field that is present with a non-empty raw
`textContent` (no trimming). -/
def selectContentAmended (item : Item) : String :=
  (contentSelectors.findSome? fun sel =>
    (qsel [sel] item).bind fun e =>
      if e.text = "" then none else some e.text).getD ""

/-- C2 counterexample: the code tests truthiness of the raw `textContent`,
not of its trimmed form.  For an item whose full-content field holds only
whitespace and whose description holds real content, the claim requires the
description's value, but the code returns the whitespace-only full-content
value. -/
theorem C2_counterexample :
    selectContent [⟨"content:encoded", "  ", []⟩, ⟨"description", "body", []⟩]
      = "  "
    ∧ selectContentClaim
        [⟨"content:encoded", "  ", []⟩, ⟨"description", "body", []⟩]
      = "body"
    ∧ selectContent [⟨"content:encoded", "  ", []⟩, ⟨"description", "body", []⟩]
      ≠ selectContentClaim
        [⟨"content:encoded", "  ", []⟩, ⟨"description", "body", []⟩] := by
  constructor
  · rfl
  · constructor
    · rfl
    · decide

/-- C2 (amended): the Content Selector returns the value of the first field
among content:encoded, content, description, summary that is present with a
non-empty raw `textContent` (no trimming; a whitespace-only field is
selected as-is), and the empty string when no field qualifies — producing a
post with an empty body, not an error.  In particular full content is always
preferred over a (non-empty-implying) description. -/
theorem C2_selector_first_nonempty_field (item : Item) :
    selectContent item = selectContentAmended item := by
  show selectLoop item contentSelectors = _
  unfold selectContentAmended
  induction contentSelectors with
  | nil => rfl
  | cons sel rest ih =>
    rw [List.findSome?_cons]
    cases hq : qsel [sel] item with
    | none => simpa [selectLoop, hq] using ih
    | some e =>
      by_cases ht : e.text = ""
      · simpa [selectLoop, hq, ht, Option.bind] using ih
      · simp [selectLoop, hq, ht, Option.bind]

/-! ## Image URL extraction (claim C5)

`extractImageUrls` (src/main.ts:312-333) collects URLs into a JavaScript
`Set` — iteration order of a `Set` is insertion order — first from the regex
scan `/<img[^>]+src="([^"]+)"/gi` over the HTML, then from
`media:content` elements whose `medium` attribute is `"image"`, and returns
`Array.from(urls)`.  The regex scan itself is represented by its result: the
ordered list `srcMatches` of captured `src` attribute values (with
repetitions), in scan order. -/

/-- JavaScript `Set.prototype.add` on an insertion-ordered set represented as a
duplicate-free list. -/
def jsSetAdd (s : List String) (u : String) : List String :=
  if s.contains u then s else s ++ [u]

/-- The `media:content` scan (src/main.ts:322-330): elements with tag
`media:content` in document order whose `url` attribute is truthy and whose
`medium` attribute equals `"image"`. -/
def mediaImageUrls (item : Item) : List String :=
  (item.filter fun e => e.tag == "media:content").filterMap fun m =>
    match m.attrs.lookup "url" with
    | some u =>
      if u ≠ "" ∧ m.attrs.lookup "medium" = some "image" then some u
      else none
    | none => none

/-- Source function `extractImageUrls` (src/main.ts:312-333), with the regex scan given by
`srcMatches`. -/
def extractImageUrls (srcMatches : List String) (item : Item) : List String :=
  (mediaImageUrls item).foldl jsSetAdd (srcMatches.foldl jsSetAdd [])

/-- Spec-side first-occurrence deduplication. -/
def specDedup : List String → List String
  | [] => []
  | x :: xs => x :: (specDedup xs).filter fun y => y != x

example : specDedup ["a", "b", "a", "c", "b"] = ["a", "b", "c"] := by decide

theorem mem_specDedup (u : String) (l : List String) :
    u ∈ specDedup l ↔ u ∈ l := by
  induction l with
  | nil => simp [specDedup]
  | cons x xs ih =>
    simp only [specDedup, List.mem_cons, List.mem_filter, ih, bne_iff_ne]
    constructor
    · rintro (h | ⟨h, _⟩)
      · exact Or.inl h
      · exact Or.inr h
    · rintro (h | h)
      · exact Or.inl h
      · by_cases hx : u = x
        · exact Or.inl hx
        · exact Or.inr ⟨h, hx⟩

theorem specDedup_nodup (l : List String) : (specDedup l).Nodup := by
  induction l with
  | nil => exact List.nodup_nil
  | cons x xs ih =>
    refine List.Nodup.cons ?_ (List.Nodup.filter _ ih)
    intro hmem
    have := (List.mem_filter.mp hmem).2
    simp at this

theorem filter_specDedup (p : String → Bool) (l : List String) :
    (specDedup l).filter p = specDedup (l.filter p) := by
  induction l with
  | nil => rfl
  | cons x xs ih =>
    show (x :: (specDedup xs).filter fun y => y != x).filter p
      = specDedup ((x :: xs).filter p)
    by_cases hp : p x
    · rw [List.filter_cons_of_pos hp, List.filter_cons_of_pos hp]
      show _ = x :: (specDedup (xs.filter p)).filter fun y => y != x
      congr 1
      rw [← ih, List.filter_filter, List.filter_filter]
      congr 1
      funext y
      rw [Bool.and_comm]
    · rw [List.filter_cons_of_neg hp, List.filter_cons_of_neg hp,
        List.filter_filter, ← ih]
      congr 1
      funext y
      by_cases hyx : y = x
      · subst hyx
        simp [hp]
      · simp [bne_iff_ne, hyx]

theorem contains_iff_mem (l : List String) (u : String) :
    l.contains u = true ↔ u ∈ l :=
  List.elem_iff

theorem contains_append_eq (l₁ l₂ : List String) (u : String) :
    (l₁ ++ l₂).contains u = (l₁.contains u || l₂.contains u) := by
  induction l₁ with
  | nil => simp [List.contains_nil]
  | cons x l₁ ih =>
    rw [List.cons_append, List.contains_cons, List.contains_cons, ih,
      Bool.or_assoc]

theorem contains_specDedup (l : List String) (u : String) :
    (specDedup l).contains u = l.contains u := by
  by_cases h : u ∈ l
  · rw [(contains_iff_mem _ _).mpr ((mem_specDedup u l).mpr h),
      (contains_iff_mem _ _).mpr h]
  · have h1 : ¬ (specDedup l).contains u = true := fun hc =>
      h ((mem_specDedup u l).mp ((contains_iff_mem _ _).mp hc))
    have h2 : ¬ l.contains u = true := fun hc =>
      h ((contains_iff_mem _ _).mp hc)
    rw [Bool.not_eq_true] at h1 h2
    rw [h1, h2]

theorem foldl_jsSetAdd (l acc : List String) :
    List.foldl jsSetAdd acc l
      = acc ++ specDedup (l.filter fun u => ! acc.contains u) := by
  induction l generalizing acc with
  | nil => simp [specDedup]
  | cons x xs ih =>
    show List.foldl jsSetAdd (jsSetAdd acc x) xs = _
    by_cases hx : acc.contains x = true
    · rw [show jsSetAdd acc x = acc from by
        simp only [jsSetAdd]
        rw [if_pos hx], ih acc]
      congr 2
      rw [List.filter_cons_of_neg (by rw [hx]; decide)]
    · rw [show jsSetAdd acc x = acc ++ [x] from by
        simp only [jsSetAdd]
        rw [if_neg hx], ih (acc ++ [x])]
      rw [List.filter_cons_of_pos (by
        rw [Bool.not_eq_true] at hx
        rw [hx]
        rfl)]
      show _ = acc ++ (x :: (specDedup (xs.filter fun u => ! acc.contains u)).filter
        fun y => y != x)
      rw [List.append_assoc, List.singleton_append]
      congr 2
      rw [filter_specDedup, List.filter_filter]
      have hfun : (fun u : String => ! (acc ++ [x]).contains u)
          = (fun u : String => (u != x) && ! acc.contains u) := by
        funext u
        rw [contains_append_eq, List.contains_cons]
        cases hacc : acc.contains u <;> cases hux : u == x <;>
          simp [bne, hux, List.contains_nil]
      rw [hfun]

/-- C5: `extractImageUrls` returns a duplicate-free list consisting of the
`img src` values of the HTML scan deduplicated to their first occurrences,
in scan order, followed by the URLs of `media:content` descriptors with
`medium="image"` that did not already appear in the scan, deduplicated to
their first occurrences in document order.  In particular the same URL
appearing three times in the HTML and once in media metadata yields exactly
one entry. -/
theorem C5_extract_dedup_first_order (srcMatches : List String) (item : Item) :
    extractImageUrls srcMatches item
      = specDedup srcMatches
        ++ specDedup ((mediaImageUrls item).filter fun u =>
              ! srcMatches.contains u)
    ∧ (extractImageUrls srcMatches item).Nodup := by
  have h1 : srcMatches.foldl jsSetAdd [] = specDedup srcMatches := by
    rw [foldl_jsSetAdd]
    rw [show (fun u : String => ! List.contains [] u) = (fun _ => true) from
      funext fun u => by simp [List.contains_nil]]
    rw [List.filter_true, List.nil_append]
  have h2 : extractImageUrls srcMatches item
      = specDedup srcMatches
        ++ specDedup ((mediaImageUrls item).filter fun u =>
              ! srcMatches.contains u) := by
    show (mediaImageUrls item).foldl jsSetAdd (srcMatches.foldl jsSetAdd [])
      = _
    rw [h1, foldl_jsSetAdd]
    have hfun : (fun u : String => ! (specDedup srcMatches).contains u)
        = (fun u : String => ! srcMatches.contains u) := by
      funext u
      rw [contains_specDedup]
    rw [hfun]
  refine ⟨h2, ?_⟩
  rw [h2]
  refine List.Nodup.append (specDedup_nodup _) (specDedup_nodup _) ?_
  intro u hu1 hu2
  have hmem1 : u ∈ srcMatches := (mem_specDedup u _).mp hu1
  have hmem2 := (mem_specDedup u _).mp hu2
  have hfalse : srcMatches.contains u = false := by
    have h3 := (List.mem_filter.mp hmem2).2
    simpa using h3
  have htrue : srcMatches.contains u = true := (contains_iff_mem _ _).mpr hmem1
  rw [htrue] at hfalse
  exact Bool.noConfusion hfalse

/-! ## Settings and the ingestion run (claims C1, C4, C8)

`RSSBlogImporterSettings` (src/main.ts:4-12).  The watermark
`lastImportedPostDate` is a millisecond timestamp. -/

structure Settings where
  rssUrl : String
  folderPath : String
  imageFolder : String
  lastImportedPostDate : Int
  fetchOnStartup : Bool
  appendBacklink : String
  enableCategoryBacklinks : Bool
deriving DecidableEq

/-- The record `DEFAULT_SETTINGS` (src/main.ts:14-22). -/
def DEFAULT_SETTINGS : Settings :=
  { rssUrl := "", folderPath := "Blog Posts", imageFolder := "Blog Images",
    lastImportedPostDate := 0, fetchOnStartup := true, appendBacklink := "",
    enableCategoryBacklinks := false }

/-- The Reset-Import-Cache button (src/main.ts:498-501): sets the watermark
to zero. -/
def resetImportCache (s : Settings) : Settings :=
  { s with lastImportedPostDate := 0 }

/-- The date selector list of the run loop (src/main.ts:140):
`item.querySelector('pubDate, published, updated')`. -/
def dateTags : List String := ["pubDate", "published", "updated"]

/-- A JavaScript `Date.getTime()` value: `none` models `NaN` (an unparsable
date string).  `new Date(text).getTime()` itself is host functionality and
is abstracted by the parameter `parseDate`. -/
abbrev JsTime := Option Int

/-- The effective publication timestamp of an item (src/main.ts:140-141 and
203-204): the `textContent` of the first element in document order whose tag
is `pubDate`, `published` or `updated`, parsed as a date; the current time
`now` when there is no such element or its text is empty (both falsy in
`pubDateText ? new Date(pubDateText) : new Date()`). -/
def effTime (parseDate : String → JsTime) (now : Int) (item : Item) : JsTime :=
  match qsel dateTags item with
  | none => some now
  | some e => if e.text = "" then some now else parseDate e.text

/-- Comparison `t > w` on `getTime()` values: `NaN > w` is false. -/
def timeGt (t : JsTime) (w : Int) : Bool :=
  match t with
  | none => false
  | some v => decide (w < v)

/-- The claim's reading of the effective timestamp: first the explicit
publish date (`pubDate`/`published`), only then the updated date, else the
current time. -/
def effTimeClaim (parseDate : String → JsTime) (now : Int) (item : Item) :
    JsTime :=
  match qsel ["pubDate", "published"] item with
  | some e => if e.text = "" then some now else parseDate e.text
  | none =>
    match qsel ["updated"] item with
    | some e => if e.text = "" then some now else parseDate e.text
    | none => some now

/-- Mutable per-run state of the item loop of `fetchRSSPosts`
(src/main.ts:133-169), together with the observable per-item trace: the
effective timestamps of successfully persisted items in order, and the
indices of items for which post creation was attempted. -/
structure RunAcc where
  latestImportedDate : Int
  newPostsCount : Nat
  skippedPostsCount : Nat
  persisted : List Int
  attempted : List Nat
deriving DecidableEq

/-- The `for` loop over feed items (src/main.ts:137-169).  `parseDate`
abstracts `new Date(·).getTime()`, `nowAt i` the `new Date()` call while
processing item `i`, and `persistOk i` whether `createBlogPost` succeeds for
item `i` (its failure is caught per item).  The watermark `wm` is read from
the settings object, which the loop does not mutate. -/
def itemsLoop (parseDate : String → JsTime) (nowAt : Nat → Int)
    (persistOk : Nat → Bool) (wm : Int) :
    Nat → RunAcc → List Item → RunAcc
  | _, acc, [] => acc
  | i, acc, item :: rest =>
    let eff := effTime parseDate (nowAt i) item
    if timeGt eff wm then
      if persistOk i then
        let t := eff.getD 0
        itemsLoop parseDate nowAt persistOk wm (i + 1)
          { acc with
            newPostsCount := acc.newPostsCount + 1,
            latestImportedDate :=
              if acc.latestImportedDate < t then t else acc.latestImportedDate,
            persisted := acc.persisted ++ [t],
            attempted := acc.attempted ++ [i] } rest
      else
        itemsLoop parseDate nowAt persistOk wm (i + 1)
          { acc with attempted := acc.attempted ++ [i] } rest
    else
      itemsLoop parseDate nowAt persistOk wm (i + 1)
        { acc with skippedPostsCount := acc.skippedPostsCount + 1 } rest

/-- Outcome of the feed fetch and XML parse, which precede the item loop:
`fetchError` models a `requestUrl` rejection (network/HTTP failure) with the
thrown error's message, `parseError` a `parsererror` document from
`DOMParser` (src/main.ts:116-124), and `ok` a parsed item/entry list. -/
inductive FetchOutcome where
  | fetchError (msg : String)
  | parseError
  | ok (items : List Item)
deriving DecidableEq

/-- Observable result of one `fetchRSSPosts` run: the watermark afterwards,
the notices shown, the reported counts, and the per-run trace. -/
structure RunResult where
  lastImportedPostDate : Int
  notices : List String
  newPostsCount : Nat
  skippedPostsCount : Nat
  persisted : List Int
  attempted : List Nat
deriving DecidableEq

/-- Source function `fetchRSSPosts` (src/main.ts:80-199).  The network request, the XML
parse and the wall clock are externals, passed as `outcome`, `parseDate`
and `nowAt`; `persistOk` abstracts the vault outcome of `createBlogPost`
per item index.  On a fetch or parse error the `catch` block runs: no item
is processed and one failure notice is shown. -/
def fetchRSSPosts (s : Settings) (outcome : FetchOutcome)
    (parseDate : String → JsTime) (nowAt : Nat → Int)
    (persistOk : Nat → Bool) : RunResult :=
  let wm := s.lastImportedPostDate
  if s.rssUrl = "" then
    { lastImportedPostDate := wm,
      notices := ["Please configure RSS URL in settings"],
      newPostsCount := 0, skippedPostsCount := 0,
      persisted := [], attempted := [] }
  else
    match outcome with
    | .fetchError msg =>
      { lastImportedPostDate := wm,
        notices := ["Fetching RSS posts...",
          "Failed to fetch RSS posts: " ++ msg],
        newPostsCount := 0, skippedPostsCount := 0,
        persisted := [], attempted := [] }
    | .parseError =>
      { lastImportedPostDate := wm,
        notices := ["Fetching RSS posts...",
          "Failed to fetch RSS posts: Failed to parse RSS feed XML"],
        newPostsCount := 0, skippedPostsCount := 0,
        persisted := [], attempted := [] }
    | .ok items =>
      let r := itemsLoop parseDate nowAt persistOk wm 0
        { latestImportedDate := wm, newPostsCount := 0,
          skippedPostsCount := 0, persisted := [], attempted := [] } items
      { lastImportedPostDate :=
          if wm < r.latestImportedDate then r.latestImportedDate else wm,
        notices := ["Fetching RSS posts...",
          "Imported " ++ toString r.newPostsCount ++ " new blog posts ("
            ++ toString r.skippedPostsCount ++ " skipped)"],
        newPostsCount := r.newPostsCount,
        skippedPostsCount := r.skippedPostsCount,
        persisted := r.persisted, attempted := r.attempted }

/-- Spec-level description of the per-run outcomes: effective timestamps of
the items that are new relative to the watermark `wm` and whose persistence
succeeds, in item order (`i` is the index of the first item). -/
def persistedSpec (parseDate : String → JsTime) (nowAt : Nat → Int)
    (persistOk : Nat → Bool) (wm : Int) : Nat → List Item → List Int
  | _, [] => []
  | i, item :: rest =>
    if timeGt (effTime parseDate (nowAt i) item) wm && persistOk i then
      (effTime parseDate (nowAt i) item).getD 0
        :: persistedSpec parseDate nowAt persistOk wm (i + 1) rest
    else persistedSpec parseDate nowAt persistOk wm (i + 1) rest

/-- Spec-level description of which items have post creation attempted:
exactly those whose effective timestamp is strictly greater than the
watermark. -/
def attemptedSpec (parseDate : String → JsTime) (nowAt : Nat → Int)
    (wm : Int) : Nat → List Item → List Nat
  | _, [] => []
  | i, item :: rest =>
    if timeGt (effTime parseDate (nowAt i) item) wm then
      i :: attemptedSpec parseDate nowAt wm (i + 1) rest
    else attemptedSpec parseDate nowAt wm (i + 1) rest

theorem attemptedSpec_length_le (parseDate : String → JsTime)
    (nowAt : Nat → Int) (wm : Int) (items : List Item) :
    ∀ i, (attemptedSpec parseDate nowAt wm i items).length ≤ items.length := by
  induction items with
  | nil => intro i; simp [attemptedSpec]
  | cons item rest ih =>
    intro i
    by_cases h : timeGt (effTime parseDate (nowAt i) item) wm = true
    · simp only [attemptedSpec, h, if_true, List.length_cons]
      exact Nat.succ_le_succ (ih (i + 1))
    · rw [show attemptedSpec parseDate nowAt wm i (item :: rest)
          = attemptedSpec parseDate nowAt wm (i + 1) rest from by
        simp only [attemptedSpec]
        rw [if_neg h]]
      exact Nat.le_trans (ih (i + 1)) (Nat.le_succ _)

theorem if_lt_eq_max (a t : Int) : (if a < t then t else a) = max a t := by
  rcases lt_or_le a t with h | h
  · rw [if_pos h, max_eq_right (le_of_lt h)]
  · rw [if_neg (not_lt.mpr h), max_eq_left h]

theorem le_foldl_max (a : Int) (l : List Int) : a ≤ l.foldl max a := by
  induction l generalizing a with
  | nil => exact le_refl a
  | cons x xs ih =>
    exact le_trans (le_max_left a x) (ih (max a x))

/-- Loop invariant of `itemsLoop`: the tracked latest date is the running
maximum over the persisted timestamps, and the trace fields accumulate the
spec-level lists. -/
theorem itemsLoop_spec (parseDate : String → JsTime) (nowAt : Nat → Int)
    (persistOk : Nat → Bool) (wm : Int) (items : List Item) :
    ∀ (i : Nat) (acc : RunAcc),
      (itemsLoop parseDate nowAt persistOk wm i acc items).latestImportedDate
        = (persistedSpec parseDate nowAt persistOk wm i items).foldl max
            acc.latestImportedDate
      ∧ (itemsLoop parseDate nowAt persistOk wm i acc items).persisted
        = acc.persisted ++ persistedSpec parseDate nowAt persistOk wm i items
      ∧ (itemsLoop parseDate nowAt persistOk wm i acc items).attempted
        = acc.attempted ++ attemptedSpec parseDate nowAt wm i items
      ∧ (itemsLoop parseDate nowAt persistOk wm i acc items).newPostsCount
        = acc.newPostsCount
          + (persistedSpec parseDate nowAt persistOk wm i items).length
      ∧ (itemsLoop parseDate nowAt persistOk wm i acc items).skippedPostsCount
        = acc.skippedPostsCount
          + (items.length
              - (attemptedSpec parseDate nowAt wm i items).length) := by
  induction items with
  | nil =>
    intro i acc
    simp [itemsLoop, persistedSpec, attemptedSpec]
  | cons item rest ih =>
    intro i acc
    by_cases hnew : timeGt (effTime parseDate (nowAt i) item) wm = true
    · by_cases hok : persistOk i = true
      · have hloop : itemsLoop parseDate nowAt persistOk wm i acc (item :: rest)
            = itemsLoop parseDate nowAt persistOk wm (i + 1)
              { acc with
                newPostsCount := acc.newPostsCount + 1,
                latestImportedDate :=
                  if acc.latestImportedDate
                      < (effTime parseDate (nowAt i) item).getD 0 then
                    (effTime parseDate (nowAt i) item).getD 0
                  else acc.latestImportedDate,
                persisted := acc.persisted
                  ++ [(effTime parseDate (nowAt i) item).getD 0],
                attempted := acc.attempted ++ [i] } rest := by
          simp only [itemsLoop]
          rw [if_pos hnew, if_pos hok]
        have hps : persistedSpec parseDate nowAt persistOk wm i (item :: rest)
            = (effTime parseDate (nowAt i) item).getD 0
              :: persistedSpec parseDate nowAt persistOk wm (i + 1) rest := by
          simp only [persistedSpec]
          rw [if_pos (by rw [hnew, hok]; rfl)]
        have has : attemptedSpec parseDate nowAt wm i (item :: rest)
            = i :: attemptedSpec parseDate nowAt wm (i + 1) rest := by
          simp only [attemptedSpec]
          rw [if_pos hnew]
        obtain ⟨ih1, ih2, ih3, ih4, ih5⟩ := ih (i + 1)
          { acc with
            newPostsCount := acc.newPostsCount + 1,
            latestImportedDate :=
              if acc.latestImportedDate
                  < (effTime parseDate (nowAt i) item).getD 0 then
                (effTime parseDate (nowAt i) item).getD 0
              else acc.latestImportedDate,
            persisted := acc.persisted
              ++ [(effTime parseDate (nowAt i) item).getD 0],
            attempted := acc.attempted ++ [i] }
        dsimp only at ih1 ih2 ih3 ih4 ih5
        rw [hloop, hps, has]
        refine ⟨?_, ?_, ?_, ?_, ?_⟩
        · rw [ih1, List.foldl_cons, if_lt_eq_max]
        · rw [ih2]
          simp
        · rw [ih3]
          simp
        · rw [ih4, List.length_cons]
          omega
        · rw [ih5, List.length_cons, List.length_cons,
            Nat.succ_sub_succ]
      · have hloop : itemsLoop parseDate nowAt persistOk wm i acc (item :: rest)
            = itemsLoop parseDate nowAt persistOk wm (i + 1)
              { acc with attempted := acc.attempted ++ [i] } rest := by
          simp only [itemsLoop]
          rw [if_pos hnew, if_neg hok]
        have hps : persistedSpec parseDate nowAt persistOk wm i (item :: rest)
            = persistedSpec parseDate nowAt persistOk wm (i + 1) rest := by
          simp only [persistedSpec]
          rw [if_neg (by rw [hnew, Bool.not_eq_true] at *; rw [hok]; simp)]
        have has : attemptedSpec parseDate nowAt wm i (item :: rest)
            = i :: attemptedSpec parseDate nowAt wm (i + 1) rest := by
          simp only [attemptedSpec]
          rw [if_pos hnew]
        obtain ⟨ih1, ih2, ih3, ih4, ih5⟩ := ih (i + 1)
          { acc with attempted := acc.attempted ++ [i] }
        dsimp only at ih1 ih2 ih3 ih4 ih5
        rw [hloop, hps, has]
        refine ⟨ih1, ih2, ?_, ih4, ?_⟩
        · rw [ih3]
          simp
        · rw [ih5, List.length_cons, List.length_cons,
            Nat.succ_sub_succ]
    · have hloop : itemsLoop parseDate nowAt persistOk wm i acc (item :: rest)
          = itemsLoop parseDate nowAt persistOk wm (i + 1)
            { acc with
              skippedPostsCount := acc.skippedPostsCount + 1 } rest := by
        simp only [itemsLoop]
        rw [if_neg hnew]
      have hps : persistedSpec parseDate nowAt persistOk wm i (item :: rest)
          = persistedSpec parseDate nowAt persistOk wm (i + 1) rest := by
        simp only [persistedSpec]
        rw [if_neg (by rw [Bool.not_eq_true] at hnew; rw [hnew]; simp)]
      have has : attemptedSpec parseDate nowAt wm i (item :: rest)
          = attemptedSpec parseDate nowAt wm (i + 1) rest := by
        simp only [attemptedSpec]
        rw [if_neg hnew]
      obtain ⟨ih1, ih2, ih3, ih4, ih5⟩ := ih (i + 1)
        { acc with skippedPostsCount := acc.skippedPostsCount + 1 }
      dsimp only at ih1 ih2 ih3 ih4 ih5
      rw [hloop, hps, has]
      refine ⟨ih1, ih2, ih3, ih4, ?_⟩
      rw [ih5, List.length_cons]
      have hle := attemptedSpec_length_le parseDate nowAt wm rest (i + 1)
      omega

/-- Evaluation of a run whose fetch rejects (the `catch` block of
src/main.ts:190-198). -/
theorem fetchRSSPosts_fetchError_eval (s : Settings)
    (parseDate : String → JsTime) (nowAt : Nat → Int) (persistOk : Nat → Bool)
    (msg : String) (hurl : ¬ s.rssUrl = "") :
    fetchRSSPosts s (.fetchError msg) parseDate nowAt persistOk
      = { lastImportedPostDate := s.lastImportedPostDate,
          notices := ["Fetching RSS posts...",
            "Failed to fetch RSS posts: " ++ msg],
          newPostsCount := 0, skippedPostsCount := 0,
          persisted := [], attempted := [] } := by
  unfold fetchRSSPosts
  rw [if_neg hurl]

/-- Evaluation of a run whose feed payload fails to parse
(src/main.ts:120-124 throws, src/main.ts:190-198 catches). -/
theorem fetchRSSPosts_parseError_eval (s : Settings)
    (parseDate : String → JsTime) (nowAt : Nat → Int) (persistOk : Nat → Bool)
    (hurl : ¬ s.rssUrl = "") :
    fetchRSSPosts s .parseError parseDate nowAt persistOk
      = { lastImportedPostDate := s.lastImportedPostDate,
          notices := ["Fetching RSS posts...",
            "Failed to fetch RSS posts: Failed to parse RSS feed XML"],
          newPostsCount := 0, skippedPostsCount := 0,
          persisted := [], attempted := [] } := by
  unfold fetchRSSPosts
  rw [if_neg hurl]

/-- Evaluation of a successful-fetch run in terms of the item loop. -/
theorem fetchRSSPosts_ok_eval (s : Settings)
    (parseDate : String → JsTime) (nowAt : Nat → Int) (persistOk : Nat → Bool)
    (items : List Item) (hurl : ¬ s.rssUrl = "") :
    fetchRSSPosts s (.ok items) parseDate nowAt persistOk
      = { lastImportedPostDate :=
            if s.lastImportedPostDate
                < (itemsLoop parseDate nowAt persistOk s.lastImportedPostDate 0
                    { latestImportedDate := s.lastImportedPostDate,
                      newPostsCount := 0, skippedPostsCount := 0,
                      persisted := [], attempted := [] } items).latestImportedDate
            then (itemsLoop parseDate nowAt persistOk s.lastImportedPostDate 0
                    { latestImportedDate := s.lastImportedPostDate,
                      newPostsCount := 0, skippedPostsCount := 0,
                      persisted := [], attempted := [] } items).latestImportedDate
            else s.lastImportedPostDate,
          notices := ["Fetching RSS posts...",
            "Imported "
              ++ toString (itemsLoop parseDate nowAt persistOk
                  s.lastImportedPostDate 0
                  { latestImportedDate := s.lastImportedPostDate,
                    newPostsCount := 0, skippedPostsCount := 0,
                    persisted := [], attempted := [] } items).newPostsCount
              ++ " new blog posts ("
              ++ toString (itemsLoop parseDate nowAt persistOk
                  s.lastImportedPostDate 0
                  { latestImportedDate := s.lastImportedPostDate,
                    newPostsCount := 0, skippedPostsCount := 0,
                    persisted := [], attempted := [] } items).skippedPostsCount
              ++ " skipped)"],
          newPostsCount := (itemsLoop parseDate nowAt persistOk
              s.lastImportedPostDate 0
              { latestImportedDate := s.lastImportedPostDate,
                newPostsCount := 0, skippedPostsCount := 0,
                persisted := [], attempted := [] } items).newPostsCount,
          skippedPostsCount := (itemsLoop parseDate nowAt persistOk
              s.lastImportedPostDate 0
              { latestImportedDate := s.lastImportedPostDate,
                newPostsCount := 0, skippedPostsCount := 0,
                persisted := [], attempted := [] } items).skippedPostsCount,
          persisted := (itemsLoop parseDate nowAt persistOk
              s.lastImportedPostDate 0
              { latestImportedDate := s.lastImportedPostDate,
                newPostsCount := 0, skippedPostsCount := 0,
                persisted := [], attempted := [] } items).persisted,
          attempted := (itemsLoop parseDate nowAt persistOk
              s.lastImportedPostDate 0
              { latestImportedDate := s.lastImportedPostDate,
                newPostsCount := 0, skippedPostsCount := 0,
                persisted := [], attempted := [] } items).attempted } := by
  unfold fetchRSSPosts
  rw [if_neg hurl]

/-- C1: for every run with a successfully fetched and parsed feed, the
watermark afterwards equals the maximum of its prior value and the largest
effective timestamp among the items successfully persisted during the run
(`persistedSpec`); when no item is persisted it is unchanged; for every run
outcome the watermark never decreases; and the only other watermark mutation,
the explicit user-triggered reset, sets it to zero. -/
theorem C1_watermark_max_of_persisted (s : Settings)
    (parseDate : String → JsTime) (nowAt : Nat → Int) (persistOk : Nat → Bool)
    (items : List Item) (hurl : ¬ s.rssUrl = "") :
    (fetchRSSPosts s (.ok items) parseDate nowAt
          persistOk).lastImportedPostDate
      = (persistedSpec parseDate nowAt persistOk s.lastImportedPostDate 0
            items).foldl max s.lastImportedPostDate
    ∧ (persistedSpec parseDate nowAt persistOk s.lastImportedPostDate 0 items
          = [] →
        (fetchRSSPosts s (.ok items) parseDate nowAt
            persistOk).lastImportedPostDate = s.lastImportedPostDate)
    ∧ (∀ outcome : FetchOutcome,
        s.lastImportedPostDate
          ≤ (fetchRSSPosts s outcome parseDate nowAt
              persistOk).lastImportedPostDate)
    ∧ (resetImportCache s).lastImportedPostDate = 0 := by
  have hL := (itemsLoop_spec parseDate nowAt persistOk s.lastImportedPostDate
    items 0
    { latestImportedDate := s.lastImportedPostDate, newPostsCount := 0,
      skippedPostsCount := 0, persisted := [], attempted := [] }).1
  dsimp only at hL
  have hge : s.lastImportedPostDate
      ≤ (itemsLoop parseDate nowAt persistOk s.lastImportedPostDate 0
          { latestImportedDate := s.lastImportedPostDate, newPostsCount := 0,
            skippedPostsCount := 0, persisted := [], attempted := [] }
          items).latestImportedDate := by
    rw [hL]
    exact le_foldl_max _ _
  have hfield : (fetchRSSPosts s (.ok items) parseDate nowAt
        persistOk).lastImportedPostDate
      = (persistedSpec parseDate nowAt persistOk s.lastImportedPostDate 0
            items).foldl max s.lastImportedPostDate := by
    rw [fetchRSSPosts_ok_eval s parseDate nowAt persistOk items hurl]
    dsimp only
    by_cases hlt : s.lastImportedPostDate
        < (itemsLoop parseDate nowAt persistOk s.lastImportedPostDate 0
            { latestImportedDate := s.lastImportedPostDate, newPostsCount := 0,
              skippedPostsCount := 0, persisted := [], attempted := [] }
            items).latestImportedDate
    · rw [if_pos hlt, hL]
    · rw [if_neg hlt]
      rw [hL] at hlt
      exact le_antisymm (le_foldl_max _ _) (not_lt.mp hlt)
  refine ⟨hfield, ?_, ?_, rfl⟩
  · intro hempty
    rw [hfield, hempty]
    rfl
  · intro outcome
    cases outcome with
    | fetchError msg =>
      rw [fetchRSSPosts_fetchError_eval s parseDate nowAt persistOk msg hurl]
    | parseError =>
      rw [fetchRSSPosts_parseError_eval s parseDate nowAt persistOk hurl]
    | ok its =>
      have hL2 := (itemsLoop_spec parseDate nowAt persistOk
        s.lastImportedPostDate its 0
        { latestImportedDate := s.lastImportedPostDate, newPostsCount := 0,
          skippedPostsCount := 0, persisted := [], attempted := [] }).1
      dsimp only at hL2
      rw [fetchRSSPosts_ok_eval s parseDate nowAt persistOk its hurl]
      dsimp only
      by_cases hlt : s.lastImportedPostDate
          < (itemsLoop parseDate nowAt persistOk s.lastImportedPostDate 0
              { latestImportedDate := s.lastImportedPostDate,
                newPostsCount := 0, skippedPostsCount := 0, persisted := [],
                attempted := [] } its).latestImportedDate
      · rw [if_pos hlt]
        exact le_of_lt hlt
      · rw [if_neg hlt]

/-- A concrete feed used by the run witnesses and counterexamples below. -/
def parseDateEx : String → JsTime := fun t =>
  if t = "U" then some 100 else if t = "P" then some 200
  else if t = "D" then some 1000 else none

/-- A feed item carrying only a `pubDate` element parsing to time 1000. -/
def itemPubDateEx : Item := [⟨"pubDate", "D", []⟩]

/-- Settings with a configured feed URL and watermark 150. -/
def settingsEx : Settings :=
  { DEFAULT_SETTINGS with
    rssUrl := "https://example.com/feed",
    lastImportedPostDate := 150 }

/-- Witness for C1: with watermark 150 and one new item whose effective
timestamp is 1000 and whose persistence succeeds, the watermark advances to
the fold of `max` over the persisted timestamps. -/
theorem C1_watermark_max_of_persisted_witness :
    (fetchRSSPosts settingsEx (.ok [itemPubDateEx]) parseDateEx (fun _ => 999)
        (fun _ => true)).lastImportedPostDate
      = (persistedSpec parseDateEx (fun _ => 999) (fun _ => true)
            settingsEx.lastImportedPostDate 0 [itemPubDateEx]).foldl max
          settingsEx.lastImportedPostDate :=
  (C1_watermark_max_of_persisted settingsEx parseDateEx (fun _ => 999)
    (fun _ => true) [itemPubDateEx] (by decide)).1

example :
    (fetchRSSPosts settingsEx (.ok [itemPubDateEx]) parseDateEx (fun _ => 999)
        (fun _ => true)).lastImportedPostDate = 1000 := by decide

/-- An item whose first date element in document order is `updated` although
a `published` element is also present. -/
def itemUpdatedFirstEx : Item := [⟨"updated", "U", []⟩, ⟨"published", "P", []⟩]

/-- C4 counterexample: the code reads
`item.querySelector('pubDate, published, updated')`, which returns the first
matching element in document order, not in the claim's priority order.  For
an item whose `updated` element (time 100) precedes its `published` element
(time 200), the code uses 100; with watermark 150 the claim's effective
timestamp 200 exceeds the watermark, yet the item is skipped and no creation
is attempted. -/
theorem C4_counterexample :
    effTime parseDateEx 999 itemUpdatedFirstEx = some 100
    ∧ effTimeClaim parseDateEx 999 itemUpdatedFirstEx = some 200
    ∧ timeGt (effTimeClaim parseDateEx 999 itemUpdatedFirstEx) 150 = true
    ∧ (fetchRSSPosts settingsEx (.ok [itemUpdatedFirstEx]) parseDateEx
        (fun _ => 999) (fun _ => true)).attempted = []
    ∧ (fetchRSSPosts settingsEx (.ok [itemUpdatedFirstEx]) parseDateEx
        (fun _ => 999) (fun _ => true)).newPostsCount = 0 := by
  decide

/-- C4 (amended): the effective publication timestamp of an item is the
parsed text of its first element in document order whose tag is `pubDate`,
`published` or `updated` (the current processing time when no such element
exists or its text is empty) — document order, not publish-before-updated
priority — and post creation is attempted for exactly the items whose
effective timestamp is strictly greater than the current watermark
(`attemptedSpec`); every other item is counted skipped, with no action and
no error. -/
theorem C4_attempted_iff_after_watermark (s : Settings)
    (parseDate : String → JsTime) (nowAt : Nat → Int) (persistOk : Nat → Bool)
    (items : List Item) (hurl : ¬ s.rssUrl = "") :
    (fetchRSSPosts s (.ok items) parseDate nowAt persistOk).attempted
      = attemptedSpec parseDate nowAt s.lastImportedPostDate 0 items
    ∧ (fetchRSSPosts s (.ok items) parseDate nowAt persistOk).skippedPostsCount
      = items.length
        - (attemptedSpec parseDate nowAt s.lastImportedPostDate 0
            items).length := by
  obtain ⟨_, _, h3, _, h5⟩ := itemsLoop_spec parseDate nowAt persistOk
    s.lastImportedPostDate items 0
    { latestImportedDate := s.lastImportedPostDate, newPostsCount := 0,
      skippedPostsCount := 0, persisted := [], attempted := [] }
  dsimp only at h3 h5
  rw [fetchRSSPosts_ok_eval s parseDate nowAt persistOk items hurl]
  dsimp only
  rw [h3, h5, List.nil_append, Nat.zero_add]
  exact ⟨rfl, rfl⟩

/-- Witness for the amended C4 theorem at the concrete feed above. -/
theorem C4_attempted_iff_after_watermark_witness :
    (fetchRSSPosts settingsEx (.ok [itemPubDateEx, itemUpdatedFirstEx])
        parseDateEx (fun _ => 999) (fun _ => true)).attempted
      = attemptedSpec parseDateEx (fun _ => 999)
          settingsEx.lastImportedPostDate 0
          [itemPubDateEx, itemUpdatedFirstEx] :=
  (C4_attempted_iff_after_watermark settingsEx parseDateEx (fun _ => 999)
    (fun _ => true) [itemPubDateEx, itemUpdatedFirstEx] (by decide)).1

example :
    attemptedSpec parseDateEx (fun _ => 999) settingsEx.lastImportedPostDate 0
      [itemPubDateEx, itemUpdatedFirstEx] = [0] := by decide

/-- The failure notice emitted by the `catch` block of `fetchRSSPosts`
(src/main.ts:197). -/
def isFailureNotice (notice : String) : Bool :=
  ("Failed to fetch RSS posts: ".toList).isPrefixOf notice.toList

theorem isFailureNotice_append (msg : String) :
    isFailureNotice ("Failed to fetch RSS posts: " ++ msg) = true := by
  unfold isFailureNotice
  apply List.isPrefixOf_iff_prefix.mpr
  show ("Failed to fetch RSS posts: ").data <+: _
  rw [show ("Failed to fetch RSS posts: " ++ msg).toList
      = ("Failed to fetch RSS posts: ").data ++ msg.data from
    String.data_append _ _]
  exact List.prefix_append _ _

/-- C8: when the feed fetch rejects or the feed payload is unparsable, the
whole run aborts: no post creation is attempted or persisted, the watermark
is unchanged, and the notices shown contain exactly one failure notice,
carrying the underlying error message. -/
theorem C8_fatal_fetch_aborts_run (s : Settings)
    (parseDate : String → JsTime) (nowAt : Nat → Int) (persistOk : Nat → Bool)
    (msg : String) (hurl : ¬ s.rssUrl = "") :
    ((fetchRSSPosts s (.fetchError msg) parseDate nowAt
          persistOk).newPostsCount = 0
      ∧ (fetchRSSPosts s (.fetchError msg) parseDate nowAt
          persistOk).attempted = []
      ∧ (fetchRSSPosts s (.fetchError msg) parseDate nowAt
          persistOk).persisted = []
      ∧ (fetchRSSPosts s (.fetchError msg) parseDate nowAt
          persistOk).lastImportedPostDate = s.lastImportedPostDate
      ∧ (fetchRSSPosts s (.fetchError msg) parseDate nowAt
            persistOk).notices.filter isFailureNotice
        = ["Failed to fetch RSS posts: " ++ msg])
    ∧ ((fetchRSSPosts s .parseError parseDate nowAt
          persistOk).newPostsCount = 0
      ∧ (fetchRSSPosts s .parseError parseDate nowAt
          persistOk).attempted = []
      ∧ (fetchRSSPosts s .parseError parseDate nowAt
          persistOk).persisted = []
      ∧ (fetchRSSPosts s .parseError parseDate nowAt
          persistOk).lastImportedPostDate = s.lastImportedPostDate
      ∧ (fetchRSSPosts s .parseError parseDate nowAt
            persistOk).notices.filter isFailureNotice
        = ["Failed to fetch RSS posts: Failed to parse RSS feed XML"]) := by
  rw [fetchRSSPosts_fetchError_eval s parseDate nowAt persistOk msg hurl,
    fetchRSSPosts_parseError_eval s parseDate nowAt persistOk hurl]
  refine ⟨⟨rfl, rfl, rfl, rfl, ?_⟩, ⟨rfl, rfl, rfl, rfl, ?_⟩⟩
  · dsimp only
    rw [List.filter_cons_of_neg (by decide),
      List.filter_cons_of_pos (isFailureNotice_append msg), List.filter_nil]
  · dsimp only
    rw [List.filter_cons_of_neg (by decide),
      List.filter_cons_of_pos (by decide), List.filter_nil]

/-- Witness for C8 at a concrete failing fetch. -/
theorem C8_fatal_fetch_aborts_run_witness :
    (fetchRSSPosts settingsEx (.fetchError "net::ERR") parseDateEx
        (fun _ => 999) (fun _ => true)).notices.filter isFailureNotice
      = ["Failed to fetch RSS posts: " ++ "net::ERR"] :=
  (C8_fatal_fetch_aborts_run settingsEx parseDateEx (fun _ => 999)
    (fun _ => true) "net::ERR" (by decide)).1.2.2.2.2

/-! ## Backlink appending (claim C10)

`appendBacklinkToContent` (src/main.ts:383-404): starting from the converted
Markdown body, optionally append the category backlinks (when enabled and
non-empty) and then optionally the custom backlink (when non-empty after
trimming), each preceded by a blank line. -/

/-- JavaScript `String.prototype.startsWith` modelled on character lists. -/
def jsStartsWith (str pre : String) : Bool := pre.toList.isPrefixOf str.toList

/-- JavaScript `String.prototype.endsWith` modelled on character lists. -/
def jsEndsWith (str suf : String) : Bool := suf.toList.isSuffixOf str.toList

/-- Normalization of the configured custom backlink
(src/main.ts:396-399): wrap in double brackets unless already so wrapped. -/
def formatBacklink (backlink : String) : String :=
  if jsStartsWith backlink "[[" && jsEndsWith backlink "]]" then backlink
  else "[[" ++ backlink ++ "]]"

/-- The category-backlink step (src/main.ts:387-392). -/
def withCategoryBacklinks (s : Settings) (content : String)
    (categories : List String) : String :=
  if s.enableCategoryBacklinks && decide (0 < categories.length) then
    content ++ "\n\n"
      ++ String.intercalate " " (categories.map fun c => "[[" ++ c ++ "]]")
  else content

/-- Source function `appendBacklinkToContent` (src/main.ts:383-404). -/
def appendBacklinkToContent (s : Settings) (content : String)
    (categories : List String) : String :=
  if jsTrimStr s.appendBacklink ≠ "" then
    withCategoryBacklinks s content categories ++ "\n\n"
      ++ formatBacklink (jsTrimStr s.appendBacklink)
  else withCategoryBacklinks s content categories

theorem withCategoryBacklinks_append (s : Settings) (content : String)
    (categories : List String) :
    ∃ t : String, withCategoryBacklinks s content categories = content ++ t := by
  unfold withCategoryBacklinks
  by_cases h : (s.enableCategoryBacklinks && decide (0 < categories.length))
      = true
  · rw [if_pos h]
    exact ⟨"\n\n"
      ++ String.intercalate " " (categories.map fun c => "[[" ++ c ++ "]]"),
      by rw [String.append_assoc]⟩
  · rw [if_neg h]
    exact ⟨"", (String.append_empty content).symm⟩

/-- C10: the backlink-appending step only ever appends: its result always
has the input body as a literal prefix, and when category backlinks are
disabled or there are no categories, and the configured custom backlink is
empty after trimming, the body is returned unchanged. -/
theorem C10_append_only_frame (s : Settings) (content : String)
    (categories : List String) :
    (∃ t : String,
      appendBacklinkToContent s content categories = content ++ t)
    ∧ ((s.enableCategoryBacklinks = false ∨ categories = []) →
        jsTrimStr s.appendBacklink = "" →
        appendBacklinkToContent s content categories = content) := by
  constructor
  · unfold appendBacklinkToContent
    obtain ⟨t₁, ht₁⟩ := withCategoryBacklinks_append s content categories
    by_cases h2 : jsTrimStr s.appendBacklink ≠ ""
    · rw [if_pos h2, ht₁]
      exact ⟨t₁ ++ ("\n\n" ++ formatBacklink (jsTrimStr s.appendBacklink)),
        by rw [String.append_assoc, String.append_assoc]⟩
    · rw [if_neg h2, ht₁]
      exact ⟨t₁, rfl⟩
  · intro hcat hbl
    unfold appendBacklinkToContent
    rw [if_neg (fun hne => hne hbl)]
    unfold withCategoryBacklinks
    have hfalse : (s.enableCategoryBacklinks && decide (0 < categories.length))
        = false := by
      cases hcat with
      | inl h => rw [h, Bool.false_and]
      | inr h => rw [h]; simp
    rw [hfalse]
    rfl

/-- Witness for C10: with category backlinks disabled and an
all-whitespace configured backlink, a concrete body is returned unchanged,
and with a configured backlink the body is a literal prefix of the result. -/
theorem C10_append_only_frame_witness :
    appendBacklinkToContent DEFAULT_SETTINGS "body text" ["cat"]
      = "body text" :=
  (C10_append_only_frame DEFAULT_SETTINGS "body text" ["cat"]).2
    (Or.inl rfl) (by decide)

example :
    appendBacklinkToContent
      { DEFAULT_SETTINGS with
        enableCategoryBacklinks := true,
        appendBacklink := " blog posts " } "body" ["a", "b"]
      = "body\n\n[[a]] [[b]]\n\n[[blog posts]]" := by decide

end RSSImporter
